import Mathlib

/-!
Verification development for the benji block-backup repository.

Part 1 models the concurrent block I/O engine of `src/benji/io/base.py`
(`IOBase`): the bounded semaphore, the read-future list and the
submit / worker-start / worker-finish / drain / cancel transitions.

Part 2 models the rbd backup driver `scripts/ceph.py`: the observer
("signal") error-vote aggregation of `snapshot_create`, `backup` and
`restore`, and `backup`'s choice between an initial and a differential
backup.

Part 3 models `src/benji/k8s_operator/resources.py`:
`create_object_ref` and `update_status_list`.

All definitions come first, all theorems afterwards.
-/

namespace Benji

/-! ### Part 1 definitions: the concurrent I/O engine (`src/benji/io/base.py`) -/

/-- Status of one entry of `self._read_futures`.

* `queued`: the future has been submitted to the `ThreadPoolExecutor`
  (by `IOBase.read` with `sync=False`) and no worker has started it.
* `acquired`: a worker thread is running `read_with_acquire` and has
  passed `self._read_semaphore.acquire()`; the permit is held.
* `finished`: `self._read(block)` returned (or raised); the result sits
  in the future, the permit is still held.
* `cancelledPending`: `future.cancel()` succeeded before a worker picked
  the future up; its `CancelledError` outcome has not been retrieved yet.

A drained future is removed from the list, so the list holds exactly the
outstanding (submitted but not yet drained) operations. -/
inductive FutureStatus where
  | queued
  | acquired
  | finished
  | cancelledPending
deriving DecidableEq, Repr

/-- `IOBase.READ_QUEUE_LENGTH = 5`. -/
def READ_QUEUE_LENGTH : Nat := 5

/-- The state of one `IOBase` instance opened for read:
`simultaneousReads` is the configured `simultaneousReads` value
(`self._simultaneous_reads`), `semAvail` the current value of
`self._read_semaphore`, and `futures` the statuses of
`self._read_futures` in submission order. -/
structure IOState where
  simultaneousReads : Nat
  semAvail : Nat
  futures : List FutureStatus
deriving DecidableEq, Repr

/-- `IOBase.open_r`: a fresh executor, an empty future list, and
`BoundedSemaphore(self._simultaneous_reads + self.READ_QUEUE_LENGTH)`. -/
def open_r (simultaneousReads : Nat) : IOState :=
  { simultaneousReads := simultaneousReads
    semAvail := simultaneousReads + READ_QUEUE_LENGTH
    futures := [] }

/-- Number of futures of a given status. -/
def countStatus : List FutureStatus → FutureStatus → Nat
  | [], _ => 0
  | x :: rest, st => (if x = st then 1 else 0) + countStatus rest st

/-- A block handed to `IOBase._read`; only its identity matters here. -/
structure DereferencedBlock where
  idx : Nat
deriving DecidableEq, Repr

/-- `IOBase.read(block, sync)`. `rd` stands for the abstract method
`self._read` of the concrete backend. With `sync=True` the call returns
`self._read(block)[1]` directly; with `sync=False` it appends
`self._read_executor.submit(read_with_acquire)` to `self._read_futures`
and returns `None`. The submitting call never touches the semaphore:
the `acquire` sits inside `read_with_acquire`, which runs on a worker
thread (the `start` transition below). -/
def read {β : Type} (s : IOState) (rd : DereferencedBlock → DereferencedBlock × β)
    (block : DereferencedBlock) (sync : Bool) : Option β × IOState :=
  if sync then
    (some (rd block).2, s)
  else
    (none, { s with futures := s.futures ++ [FutureStatus.queued] })

/-- One atomic event of the engine, translated from `IOBase.read`
(submission and the body of `read_with_acquire`) and from the drain
of `IOBase.read_get_completed`.

* `submit`: the `else` branch of `IOBase.read` appends
  `self._read_executor.submit(read_with_acquire)` to
  `self._read_futures`. It has no precondition: the semaphore is not
  touched by the submitting call.
* `start`: a free worker (fewer than `simultaneousReads` running) picks a
  queued future and `read_with_acquire` passes
  `self._read_semaphore.acquire()`; one permit is taken.
* `finish`: the worker's `self._read(block)` returns; the permit is not
  released here.
* `drain`: the caller retrieves one finished result through
  `read_get_completed`; the future is removed from the list and its
  permit is released. (The retrieval/release loop lives in
  `benji.utils.future_results_as_completed`, which is not part of this
  repository snapshot. Modelled from the spec: the permit is released
  only after the operation's result has been retrieved by the caller,
  and each retrieved future leaves the outstanding set.)
* `drainCancelled`: the caller retrieves the `CancelledError` outcome of
  a cancelled future; it never acquired a permit, so none is released.
* `cancel`: `future.cancel()` on a not-yet-started future succeeds. -/
inductive Step : IOState → IOState → Prop where
  | submit (s : IOState) :
      Step s { s with futures := s.futures ++ [FutureStatus.queued] }
  | start (s : IOState) (l₁ l₂ : List FutureStatus)
      (hf : s.futures = l₁ ++ FutureStatus.queued :: l₂)
      (hsem : 0 < s.semAvail)
      (hworker : countStatus s.futures FutureStatus.acquired < s.simultaneousReads) :
      Step s { s with semAvail := s.semAvail - 1
                      futures := l₁ ++ FutureStatus.acquired :: l₂ }
  | finish (s : IOState) (l₁ l₂ : List FutureStatus)
      (hf : s.futures = l₁ ++ FutureStatus.acquired :: l₂) :
      Step s { s with futures := l₁ ++ FutureStatus.finished :: l₂ }
  | drain (s : IOState) (l₁ l₂ : List FutureStatus)
      (hf : s.futures = l₁ ++ FutureStatus.finished :: l₂) :
      Step s { s with semAvail := s.semAvail + 1
                      futures := l₁ ++ l₂ }
  | drainCancelled (s : IOState) (l₁ l₂ : List FutureStatus)
      (hf : s.futures = l₁ ++ FutureStatus.cancelledPending :: l₂) :
      Step s { s with futures := l₁ ++ l₂ }
  | cancel (s : IOState) (l₁ l₂ : List FutureStatus)
      (hf : s.futures = l₁ ++ FutureStatus.queued :: l₂) :
      Step s { s with futures := l₁ ++ FutureStatus.cancelledPending :: l₂ }

/-- Reflexive-transitive closure of `Step`. -/
inductive ReachableFrom : IOState → IOState → Prop where
  | refl (s : IOState) : ReachableFrom s s
  | step {s t u : IOState} : ReachableFrom s t → Step t u → ReachableFrom s u

/-- The semaphore releases performed while `IOBase.close` drains the
outstanding futures, folded over the future list: a future that was
cancelled before starting (`queued` futures are cancelled by `close`'s
cancel loop, `cancelledPending` ones already were) never acquired a
permit and releases nothing; a future that reached `acquired` runs to
completion and, like a `finished` one, releases its permit when its
result is retrieved by the drain loop. Modelled from the spec for the
release/retrieval part, which lives in
`benji.utils.future_results_as_completed` (not in this snapshot). -/
def drainAll : List FutureStatus → Nat → Nat
  | [], sem => sem
  | FutureStatus.queued :: rest, sem => drainAll rest sem
  | FutureStatus.cancelledPending :: rest, sem => drainAll rest sem
  | FutureStatus.acquired :: rest, sem => drainAll rest (sem + 1)
  | FutureStatus.finished :: rest, sem => drainAll rest (sem + 1)

/-- `IOBase.close`: cancel every outstanding future, iterate
`read_get_completed()` discarding every result (releasing the permits of
all permit-holding futures), then shut the executor down. The resulting
state has no outstanding futures. -/
def close (s : IOState) : IOState :=
  { s with semAvail := drainAll s.futures s.semAvail
           futures := [] }

/-- Outcome retrieved for one future by the drain loop of
`IOBase.close`: either the completed result of `self._read` (a
`(block, data)` pair or the exception it raised, yielded as a value) or
the `CancelledError` of a future cancelled before it started. -/
inductive ReadResult where
  | completed
  | cancelledError
deriving DecidableEq, Repr

/-- The sequence of results retrieved — and immediately discarded by
`for result in self.read_get_completed(): pass` — while `IOBase.close`
drains the outstanding futures. -/
def closeResults : List FutureStatus → List ReadResult
  | [] => []
  | FutureStatus.queued :: rest => ReadResult.cancelledError :: closeResults rest
  | FutureStatus.cancelledPending :: rest => ReadResult.cancelledError :: closeResults rest
  | FutureStatus.acquired :: rest => ReadResult.completed :: closeResults rest
  | FutureStatus.finished :: rest => ReadResult.completed :: closeResults rest

/-- The state of an engine opened with `simultaneousReads = 1` after the
producer has called `read(block, sync=False)` seven times in a row with
no intervening drain: seven outstanding futures, none started, the
semaphore untouched at its initial value `1 + 5 = 6`. -/
def sevenSubmitted : IOState :=
  { simultaneousReads := 1
    semAvail := 6
    futures := List.replicate 7 FutureStatus.queued }

/-! ### Part 2 definitions: the rbd driver (`scripts/ceph.py`) -/

/-- Python's `functools.reduce(f, xs)` without an initial value: raises
`TypeError` (here `none`) on an empty sequence, otherwise folds `f`
left-to-right starting from the first element. -/
def pyReduce {α : Type} (f : α → α → α) : List α → Option α
  | [] => none
  | x :: xs => some (xs.foldl f x)

/-- `blinker`'s `signal.send(...)`: every registered observer is invoked
with the event payload, in registration order; the replies are collected
in the same order (the `r[1]` component of each `(receiver, reply)`
pair). -/
def send {π ρ : Type} (observers : List (π → ρ)) (payload : π) : List ρ :=
  observers.map (fun receiver => receiver payload)

/-- What the `except Exception` branch of `snapshot_create` / `backup` /
`restore` in `scripts/ceph.py` does after the post-error signal:

* `reraised`: `raise_exception` was truthy and the bare `raise`
  re-raised the original exception to the caller;
* `returnedNone`: `raise_exception` was falsy; control falls off the end
  of the function, which returns `None`;
* `typeErrorRaised`: `reduce(or_, ...)` itself raised `TypeError`
  because the reply sequence was empty and no initial value was given. -/
inductive ErrorPathOutcome where
  | reraised
  | returnedNone
  | typeErrorRaised
deriving DecidableEq, Repr

/-- `reduce(or_, map(lambda r: bool(r[1]), signal_*.send(...)))` followed
by `if raise_exception: raise`. `truthy` is Python's `bool(...)` on an
observer's reply. -/
def errorSignalOutcome {π ρ : Type} (observers : List (π → ρ)) (truthy : ρ → Bool)
    (payload : π) : ErrorPathOutcome :=
  match pyReduce (fun a b => a || b) ((send observers payload).map truthy) with
  | none => ErrorPathOutcome.typeErrorRaised
  | some true => ErrorPathOutcome.reraised
  | some false => ErrorPathOutcome.returnedNone

/-- The `except Exception` branch of `snapshot_create` (`scripts/ceph.py`):
send `signal_snapshot_create_post_error`, aggregate the votes with
`reduce(or_, ...)`, re-raise when the aggregate is truthy. -/
def snapshot_create_on_error {π ρ : Type} (observers : List (π → ρ)) (truthy : ρ → Bool)
    (payload : π) : ErrorPathOutcome :=
  errorSignalOutcome observers truthy payload

/-- The `except Exception` branch of `backup` (`scripts/ceph.py`): send
`signal_backup_post_error`, aggregate the votes with `reduce(or_, ...)`,
re-raise when the aggregate is truthy; otherwise the function returns
`None`. -/
def backup_on_error {π ρ : Type} (observers : List (π → ρ)) (truthy : ρ → Bool)
    (payload : π) : ErrorPathOutcome :=
  errorSignalOutcome observers truthy payload

/-- The `except Exception` branch of `restore` (`scripts/ceph.py`): send
`signal_restore_post_error`, aggregate the votes with `reduce(or_, ...)`,
re-raise when the aggregate is truthy. -/
def restore_on_error {π ρ : Type} (observers : List (π → ρ)) (truthy : ρ → Bool)
    (payload : π) : ErrorPathOutcome :=
  errorSignalOutcome observers truthy payload

/-- `RBD_SNAP_NAME_PREFIX = 'b-'` (`scripts/ceph.py`). -/
def RBD_SNAP_NAME_PREFIX : String := "b-"

/-- Python's `str.startswith(prefix)`: the prefix's characters are an
initial segment of the string's characters. -/
def pyStartsWith (s pre : String) : Bool :=
  pre.data.isPrefixOf s.data

/-- One row of `benji ls` output: a version of the catalog. -/
structure Version where
  uid : String
  volume : String
  snapshot : String
  status : String
deriving DecidableEq, Repr

/-- The `benji ls 'volume == "..." and snapshot == "..." and status ==
"valid"'` call issued by `backup`: the catalog's versions filtered by
that query string (the filter itself is evaluated by the external
`benji` CLI; its semantics here is the literal query passed in
`scripts/ceph.py`). -/
def benjiLsValid (versions : List Version) (volume snapshot : String) : List Version :=
  versions.filter (fun v => v.volume == volume && v.snapshot == snapshot && v.status == "valid")

/-- Which branch `backup` (`scripts/ceph.py`) takes after listing the
rbd snapshots. -/
inductive BackupAction where
  | initialBackup
  | differentialBackup (lastSnapshot baseVersionUid : String)
  | dropSnapshotThenInitial (lastSnapshot : String)
deriving DecidableEq, Repr

/-- The decision logic of `backup` (`scripts/ceph.py`): keep the
rbd snapshots whose name starts with `RBD_SNAP_NAME_PREFIX` (the list is
ordered by snapshot id, so the newest comes last); with none, perform an
initial backup; otherwise take the newest as `last_snapshot` (the older
ones are deleted) and look it up with `benji ls ... status == "valid"`.
A hit yields a differential backup from the first matching version's
uid; a miss deletes the snapshot and reverts to an initial backup. -/
def backupDecision (rbdSnapLs : List String) (versions : List Version)
    (volume : String) : BackupAction :=
  let benjisSnapshots := rbdSnapLs.filter (fun name => pyStartsWith name RBD_SNAP_NAME_PREFIX)
  match benjisSnapshots.getLast? with
  | none => BackupAction.initialBackup
  | some lastSnapshot =>
    match benjiLsValid versions volume lastSnapshot with
    | [] => BackupAction.dropSnapshotThenInitial lastSnapshot
    | v :: _ => BackupAction.differentialBackup lastSnapshot v.uid

/-! ### Part 3 definitions: the operator resources (`src/benji/k8s_operator/resources.py`) -/

/-- The `metadata` of a Kubernetes resource dictionary, the fields used
by `create_object_ref` (`ns` stands for the `namespace` key, a reserved
word in Lean). -/
structure ResourceMetadata where
  name : String
  ns : String
  uid : String
deriving DecidableEq, Repr

/-- A Kubernetes resource dictionary as consumed by `create_object_ref`
and `update_status_list` (the `hasattr(resource, 'to_dict')` branch only
converts a client object to this dictionary form). -/
structure Resource where
  metadata : ResourceMetadata
  apiVersion : String
  kind : String
deriving DecidableEq, Repr

/-- The dictionary built by `create_object_ref(resource_dict,
include_gvk)`: `name`, `namespace` and `uid` from the resource's
metadata, plus `apiVersion` and `kind` when `include_gvk` is true. -/
structure ObjectRef where
  name : String
  ns : String
  uid : String
  gvk : Option (String × String)
deriving DecidableEq, Repr

/-- `create_object_ref` (`src/benji/k8s_operator/resources.py`). -/
def create_object_ref (resource : Resource) (include_gvk : Bool) : ObjectRef :=
  { name := resource.metadata.name
    ns := resource.metadata.ns
    uid := resource.metadata.uid
    gvk := if include_gvk then some (resource.apiVersion, resource.kind) else none }

/-- One entry of a resource's status list: the object-reference value
stored under `RESOURCE_STATUS_LIST_OBJECT_REFERENCE` plus the keys of
`extra_data` (a type parameter; its keys are distinct from the
object-reference key). -/
structure StatusEntry (ε : Type) where
  objectRef : ObjectRef
  extra : ε
deriving DecidableEq, Repr

/-- The entry `update_status_list` builds for the given resource:
`{RESOURCE_STATUS_LIST_OBJECT_REFERENCE:
create_object_ref(resource_dict, include_gvk=False)}` updated with
`extra_data`. -/
def newStatusEntry {ε : Type} (resource : Resource) (extra_data : ε) : StatusEntry ε :=
  { objectRef := create_object_ref resource false
    extra := extra_data }

/-- `update_status_list` (`src/benji/k8s_operator/resources.py`): on a
copy of the input list (`new_lst = list(lst)`), replace the first entry
whose object-reference `uid` equals the resource's `metadata.uid` with a
fresh entry (then `break`); when the loop's `else` is reached — no entry
matched — append the fresh entry at the end. -/
def update_status_list {ε : Type} (lst : List (StatusEntry ε)) (resource : Resource)
    (extra_data : ε) : List (StatusEntry ε) :=
  match lst with
  | [] => [newStatusEntry resource extra_data]
  | e :: rest =>
    if e.objectRef.uid = resource.metadata.uid then
      newStatusEntry resource extra_data :: rest
    else
      e :: update_status_list rest resource extra_data

/-! ### Theorems: helper lemmas -/

theorem countStatus_append (a b : List FutureStatus) (st : FutureStatus) :
    countStatus (a ++ b) st = countStatus a st + countStatus b st := by
  induction a with
  | nil => simp [countStatus]
  | cons x xs ih => simp [countStatus, ih]; omega

theorem countStatus_cons (x : FutureStatus) (l : List FutureStatus) (st : FutureStatus) :
    countStatus (x :: l) st = (if x = st then 1 else 0) + countStatus l st := rfl

/-- Permit accounting for a single step: `simultaneousReads` never
changes, and the semaphore value plus the number of permit-holding
futures (`acquired` or `finished`) is preserved. -/
theorem step_permit_accounting {s t : IOState} (h : Step s t) :
    t.simultaneousReads = s.simultaneousReads ∧
    t.semAvail + countStatus t.futures FutureStatus.acquired
        + countStatus t.futures FutureStatus.finished
      = s.semAvail + countStatus s.futures FutureStatus.acquired
        + countStatus s.futures FutureStatus.finished := by
  cases h with
  | submit =>
      refine ⟨rfl, ?_⟩
      simp [countStatus_append, countStatus]
  | start l₁ l₂ hf hsem hworker =>
      refine ⟨rfl, ?_⟩
      simp only [hf, countStatus_append, countStatus_cons]
      simp
      omega
  | finish l₁ l₂ hf =>
      refine ⟨rfl, ?_⟩
      simp only [hf, countStatus_append, countStatus_cons]
      simp
      omega
  | drain l₁ l₂ hf =>
      refine ⟨rfl, ?_⟩
      simp only [hf, countStatus_append, countStatus_cons]
      simp
      omega
  | drainCancelled l₁ l₂ hf =>
      refine ⟨rfl, ?_⟩
      simp only [hf, countStatus_append, countStatus_cons]
      simp
  | cancel l₁ l₂ hf =>
      refine ⟨rfl, ?_⟩
      simp only [hf, countStatus_append, countStatus_cons]
      simp

/-- Invariant of every state reachable from `open_r n`: the configured
read count is `n` and the semaphore value plus the number of
permit-holding futures equals the initial permit count `n + 5`. -/
theorem reachable_permit_invariant (n : Nat) (s : IOState)
    (h : ReachableFrom (open_r n) s) :
    s.simultaneousReads = n ∧
    s.semAvail + countStatus s.futures FutureStatus.acquired
        + countStatus s.futures FutureStatus.finished
      = n + READ_QUEUE_LENGTH := by
  induction h with
  | refl => simp [open_r, countStatus]
  | step _ hstep ih =>
      obtain ⟨hn, hacc⟩ := step_permit_accounting hstep
      exact ⟨hn.trans ih.1, hacc.trans ih.2⟩

/-- `drainAll` adds exactly one release per permit-holding future. -/
theorem drainAll_eq (l : List FutureStatus) (sem : Nat) :
    drainAll l sem
      = sem + countStatus l FutureStatus.acquired + countStatus l FutureStatus.finished := by
  induction l generalizing sem with
  | nil => simp [drainAll, countStatus]
  | cons x rest ih =>
      cases x <;> simp [drainAll, countStatus, ih] <;> omega

theorem closeResults_append (a b : List FutureStatus) :
    closeResults (a ++ b) = closeResults a ++ closeResults b := by
  induction a with
  | nil => rfl
  | cons x rest ih => cases x <;> simp [closeResults, ih]

/-- `sevenSubmitted` is reached from a freshly opened engine by seven
asynchronous submissions and nothing else. -/
theorem sevenSubmitted_reachable : ReachableFrom (open_r 1) sevenSubmitted := by
  have h0 := ReachableFrom.refl (open_r 1)
  have h1 := ReachableFrom.step h0 (Step.submit _)
  have h2 := ReachableFrom.step h1 (Step.submit _)
  have h3 := ReachableFrom.step h2 (Step.submit _)
  have h4 := ReachableFrom.step h3 (Step.submit _)
  have h5 := ReachableFrom.step h4 (Step.submit _)
  have h6 := ReachableFrom.step h5 (Step.submit _)
  have h7 := ReachableFrom.step h6 (Step.submit _)
  exact h7

/-! ### Claim theorems -/

/-- C1, counterexample. The first half of C1 holds (the semaphore is
created with `simultaneousReads + 5` permits), but the claimed
consequence — at most `N + Q` read operations outstanding (submitted but
not yet drained) at the same time — fails: with `simultaneousReads = 1`
(bound `6`), seven submissions with no drain reach a state with seven
outstanding operations, because `IOBase.read` submits without acquiring
the semaphore (the acquire happens later, inside `read_with_acquire` on
a worker thread). -/
theorem C1_counterexample_outstanding_exceeds_bound :
    ReachableFrom (open_r 1) sevenSubmitted ∧
    sevenSubmitted.simultaneousReads + READ_QUEUE_LENGTH
      < sevenSubmitted.futures.length :=
  ⟨sevenSubmitted_reachable, by decide⟩

/-- C1, amended. For an engine opened for read with
`simultaneousReads = N`, the counting semaphore is created with exactly
`N + 5` permits (`READ_QUEUE_LENGTH = 5`), and in every reachable state
at most `N + 5` read operations simultaneously hold a permit without
having been drained (operations dispatched to a worker past the acquire,
running or completed-but-undrained); merely submitted operations are not
bounded. -/
theorem C1_semaphore_bounds_permit_holders (n : Nat) (s : IOState)
    (h : ReachableFrom (open_r n) s) :
    (open_r n).semAvail = n + READ_QUEUE_LENGTH ∧
    READ_QUEUE_LENGTH = 5 ∧
    countStatus s.futures FutureStatus.acquired
        + countStatus s.futures FutureStatus.finished
      ≤ n + READ_QUEUE_LENGTH := by
  refine ⟨rfl, rfl, ?_⟩
  have hinv := (reachable_permit_invariant n s h).2
  omega

/-- Witness for C1 (amended) at `n = 2` and the freshly opened state. -/
theorem C1_witness :
    (open_r 2).semAvail = 2 + READ_QUEUE_LENGTH ∧
    READ_QUEUE_LENGTH = 5 ∧
    countStatus (open_r 2).futures FutureStatus.acquired
        + countStatus (open_r 2).futures FutureStatus.finished
      ≤ 2 + READ_QUEUE_LENGTH :=
  C1_semaphore_bounds_permit_holders 2 (open_r 2) (ReachableFrom.refl _)

/-- C2, counterexample. In the state `sevenSubmitted` — seven operations
submitted and none drained, one more than the claimed `N + Q = 6`
backpressure bound — the submitting call `read(block, sync=False)` still
completes at once: the `submit` transition is enabled with no drain
having occurred, and it leaves the semaphore untouched. -/
theorem C2_counterexample_submit_does_not_block :
    ReachableFrom (open_r 1) sevenSubmitted ∧
    sevenSubmitted.simultaneousReads + READ_QUEUE_LENGTH
      < sevenSubmitted.futures.length ∧
    Step sevenSubmitted
      { sevenSubmitted with futures := sevenSubmitted.futures ++ [FutureStatus.queued] } ∧
    ({ sevenSubmitted with
        futures := sevenSubmitted.futures ++ [FutureStatus.queued] } : IOState).semAvail
      = sevenSubmitted.semAvail :=
  ⟨sevenSubmitted_reachable, by decide, Step.submit _, rfl⟩

/-- C2, amended. Submitting an asynchronous read (`read` with
`sync=False`) never blocks the calling producer, in any state: it only
appends the new future and does not touch the semaphore. The semaphore
acquire — the backpressure point — is performed by `read_with_acquire`
on a worker thread (the `start` transition), so when more than `N + Q`
operations are undrained it is the workers, not the submitting call,
that wait until a result is drained. -/
theorem C2_submission_always_nonblocking {β : Type} (s : IOState)
    (rd : DereferencedBlock → DereferencedBlock × β) (block : DereferencedBlock) :
    (read s rd block false).2
      = { s with futures := s.futures ++ [FutureStatus.queued] } ∧
    Step s (read s rd block false).2 ∧
    ((read s rd block false).2).semAvail = s.semAvail ∧
    (read s rd block false).1 = none :=
  ⟨rfl, Step.submit s, rfl, rfl⟩

/-- C3. A transition releases a semaphore permit (increases the
semaphore value) only when it is the retrieval of a finished
operation's result through `read_get_completed`: the drained future was
`finished`, it leaves the outstanding set, and exactly one permit is
released. In particular the worker-side `finish` transition — the worker
thread completing `self._read` — never releases a permit. -/
theorem C3_permit_released_only_on_result_retrieval (s t : IOState)
    (hstep : Step s t) (hrel : s.semAvail < t.semAvail) :
    ∃ l₁ l₂, s.futures = l₁ ++ FutureStatus.finished :: l₂ ∧
      t.futures = l₁ ++ l₂ ∧ t.semAvail = s.semAvail + 1 := by
  cases hstep with
  | submit => exact absurd hrel (lt_irrefl _)
  | start l₁ l₂ hf hsem hworker =>
      exfalso
      have hlt : s.semAvail < s.semAvail - 1 := hrel
      omega
  | finish l₁ l₂ hf => exact absurd hrel (lt_irrefl _)
  | drain l₁ l₂ hf => exact ⟨l₁, l₂, hf, rfl, rfl⟩
  | drainCancelled l₁ l₂ hf => exact absurd hrel (lt_irrefl _)
  | cancel l₁ l₂ hf => exact absurd hrel (lt_irrefl _)

/-- Witness for C3: draining the single finished future of a
`simultaneousReads = 1` engine releases one permit. -/
theorem C3_witness :
    Step { simultaneousReads := 1, semAvail := 5, futures := [FutureStatus.finished] }
      { simultaneousReads := 1, semAvail := 6, futures := [] } ∧
    (5 : Nat) < 6 ∧
    (∃ l₁ l₂,
      ({ simultaneousReads := 1, semAvail := 5,
         futures := [FutureStatus.finished] } : IOState).futures
        = l₁ ++ FutureStatus.finished :: l₂ ∧
      ({ simultaneousReads := 1, semAvail := 6, futures := [] } : IOState).futures
        = l₁ ++ l₂ ∧
      ({ simultaneousReads := 1, semAvail := 6, futures := [] } : IOState).semAvail
        = ({ simultaneousReads := 1, semAvail := 5,
             futures := [FutureStatus.finished] } : IOState).semAvail + 1) := by
  have hstep : Step
      { simultaneousReads := 1, semAvail := 5, futures := [FutureStatus.finished] }
      { simultaneousReads := 1, semAvail := 6, futures := [] } :=
    Step.drain _ [] [] rfl
  exact ⟨hstep, by decide,
    C3_permit_released_only_on_result_retrieval _ _ hstep (by decide)⟩

/-- C4. Closing an engine in any reachable state — `close` cancels every
outstanding future, drains the results of all of them (releasing the
permit of every permit-holding operation) and only then shuts the worker
pool down — ends with the semaphore back at its full permit count
`n + 5` and no outstanding future; and a freshly opened engine
(`open_r n`) has its full permit count `n + 5` available. No permit is
leaked. -/
theorem C4_close_leaks_no_permit (n : Nat) (s : IOState)
    (h : ReachableFrom (open_r n) s) :
    (close s).semAvail = n + READ_QUEUE_LENGTH ∧
    (close s).futures = [] ∧
    (open_r n).semAvail = n + READ_QUEUE_LENGTH ∧
    (open_r n).futures = [] := by
  refine ⟨?_, rfl, rfl, rfl⟩
  have hinv := (reachable_permit_invariant n s h).2
  have hd := drainAll_eq s.futures s.semAvail
  simp only [close]
  omega

/-- Witness for C4: a `simultaneousReads = 1` engine whose single
submitted read was started (permit taken) and finished (permit still
held); closing it returns the semaphore to the full count `6`. -/
theorem C4_witness :
    ReachableFrom (open_r 1)
      { simultaneousReads := 1, semAvail := 5, futures := [FutureStatus.finished] } ∧
    ((close { simultaneousReads := 1, semAvail := 5,
              futures := [FutureStatus.finished] }).semAvail
        = 1 + READ_QUEUE_LENGTH ∧
      (close { simultaneousReads := 1, semAvail := 5,
               futures := [FutureStatus.finished] }).futures = [] ∧
      (open_r 1).semAvail = 1 + READ_QUEUE_LENGTH ∧
      (open_r 1).futures = []) := by
  have h0 := ReachableFrom.refl (open_r 1)
  have h1 := ReachableFrom.step h0 (Step.submit _)
  have h2 := ReachableFrom.step h1
    (Step.start _ [] [] rfl (by decide) (by decide))
  have h3 : ReachableFrom (open_r 1)
      { simultaneousReads := 1, semAvail := 5, futures := [FutureStatus.finished] } :=
    ReachableFrom.step h2 (Step.finish _ [] [] rfl)
  exact ⟨h3, C4_close_leaks_no_permit 1 _ h3⟩

/-- C5. When `close` runs on a state with an outstanding not-yet-started
future (which its cancel loop cancels), the drain loop does retrieve
that future's `CancelledError` outcome, but the outcome is discarded by
`for result in self.read_get_completed(): pass`: the state `close`
produces is exactly the one it would produce had the cancelled operation
never existed, so the `CancelledError` is not surfaced to the caller
that requested the close. -/
theorem C5_close_swallows_cancelled_errors (s : IOState)
    (l₁ l₂ : List FutureStatus)
    (hf : s.futures = l₁ ++ FutureStatus.queued :: l₂) :
    ReadResult.cancelledError ∈ closeResults s.futures ∧
    close s = close { s with futures := l₁ ++ l₂ } ∧
    (close s).futures = [] := by
  refine ⟨?_, ?_, rfl⟩
  · rw [hf, closeResults_append]
    simp [closeResults]
  · simp only [close, hf]
    congr 1
    have ha := drainAll_eq (l₁ ++ FutureStatus.queued :: l₂) s.semAvail
    have hb := drainAll_eq (l₁ ++ l₂) s.semAvail
    simp only [countStatus_append, countStatus_cons] at ha hb
    simp at ha hb
    omega

/-- Witness for C5: an engine with one queued and one finished read;
closing it retrieves a `CancelledError` internally and swallows it. -/
theorem C5_witness :
    (IOState.mk 1 5 [FutureStatus.queued, FutureStatus.finished]).futures
      = [] ++ FutureStatus.queued :: [FutureStatus.finished] ∧
    (ReadResult.cancelledError ∈
        closeResults (IOState.mk 1 5 [FutureStatus.queued, FutureStatus.finished]).futures ∧
      close (IOState.mk 1 5 [FutureStatus.queued, FutureStatus.finished])
        = close (IOState.mk 1 5 ([] ++ [FutureStatus.finished])) ∧
      (close (IOState.mk 1 5 [FutureStatus.queued, FutureStatus.finished])).futures = []) :=
  ⟨rfl, C5_close_swallows_cancelled_errors _ [] [FutureStatus.finished] rfl⟩

/-- C8. `read(block, sync=True)` returns the payload
`self._read(block)[1]` immediately and in-line; the engine state is
untouched: the semaphore is not acquired and nothing is appended to
`self._read_futures`, so the bounded-queue path is bypassed entirely. -/
theorem C8_sync_read_bypasses_queue {β : Type} (s : IOState)
    (rd : DereferencedBlock → DereferencedBlock × β) (block : DereferencedBlock) :
    (read s rd block true).1 = some (rd block).2 ∧
    ((read s rd block true).2).semAvail = s.semAvail ∧
    ((read s rd block true).2).futures = s.futures ∧
    (read s rd block true).2 = s :=
  ⟨rfl, rfl, rfl, rfl⟩

/-- Folding boolean `or` from the left equals `any`. -/
theorem foldl_or_eq_any (xs : List Bool) (x : Bool) :
    xs.foldl (fun a b => a || b) x = (x || xs.any id) := by
  induction xs generalizing x with
  | nil => simp
  | cons y ys ih => simp [List.foldl_cons, ih, Bool.or_assoc]

/-- `any` over a mapped boolean list. -/
theorem any_map_id {α : Type} (l : List α) (p : α → Bool) :
    (l.map p).any id = l.any p := by
  induction l with
  | nil => rfl
  | cons x xs ih => simp [List.any_cons, ih]

/-- `reduce(or_, l)` on a non-empty boolean list is `any`. -/
theorem pyReduce_or_eq_any (l : List Bool) (h : l ≠ []) :
    pyReduce (fun a b => a || b) l = some (l.any id) := by
  cases l with
  | nil => exact absurd rfl h
  | cons x xs => simp [pyReduce, foldl_or_eq_any, List.any_cons]

/-- Unfolding `errorSignalOutcome` through a successful `reduce`. -/
theorem errorSignalOutcome_eq_of_pyReduce {π ρ : Type} (observers : List (π → ρ))
    (truthy : ρ → Bool) (payload : π) (b : Bool)
    (hred : pyReduce (fun a b => a || b) ((send observers payload).map truthy) = some b) :
    errorSignalOutcome observers truthy payload
      = if b then ErrorPathOutcome.reraised else ErrorPathOutcome.returnedNone := by
  unfold errorSignalOutcome
  rw [hred]
  cases b <;> rfl

/-- With at least one registered observer, the error-signal aggregation
re-raises exactly when some reply is truthy, and otherwise lets the
function return `None`. -/
theorem errorSignalOutcome_nonempty {π ρ : Type} (observers : List (π → ρ))
    (truthy : ρ → Bool) (payload : π) (h : observers ≠ []) :
    errorSignalOutcome observers truthy payload
      = if (send observers payload).any truthy then ErrorPathOutcome.reraised
        else ErrorPathOutcome.returnedNone := by
  have hne : (send observers payload).map truthy ≠ [] := by
    simpa [send] using h
  have hred := pyReduce_or_eq_any ((send observers payload).map truthy) hne
  have heq := errorSignalOutcome_eq_of_pyReduce observers truthy payload _ hred
  rwa [any_map_id] at heq

/-- C6. After a failure in `backup`, the `signal_backup_post_error`
event is sent to every registered observer (one reply per observer, in
registration order) and the truthiness of the replies is aggregated with
`reduce(or_, ...)`; provided at least one observer is registered, the
original exception is re-raised to the caller exactly when some
observer's reply is truthy, and when every reply is falsy the failed
`backup` call returns `None` — the votes never change the operation's
own outcome. -/
theorem C6_backup_error_observer_votes {π ρ : Type} (observers : List (π → ρ))
    (truthy : ρ → Bool) (payload : π) (h : observers ≠ []) :
    (send observers payload).length = observers.length ∧
    (backup_on_error observers truthy payload = ErrorPathOutcome.reraised ↔
      ∃ reply ∈ send observers payload, truthy reply = true) ∧
    ((∀ reply ∈ send observers payload, truthy reply = false) →
      backup_on_error observers truthy payload = ErrorPathOutcome.returnedNone) := by
  have he : backup_on_error observers truthy payload
      = if (send observers payload).any truthy then ErrorPathOutcome.reraised
        else ErrorPathOutcome.returnedNone :=
    errorSignalOutcome_nonempty observers truthy payload h
  refine ⟨by simp [send], ?_, ?_⟩
  · rw [he]
    cases hb : (send observers payload).any truthy with
    | true =>
        rw [if_pos rfl]
        exact ⟨fun _ => List.any_eq_true.mp hb, fun _ => rfl⟩
    | false =>
        rw [if_neg (by decide)]
        constructor
        · intro hcontr
          exact absurd hcontr (by decide)
        · intro hex
          have hany := List.any_eq_true.mpr hex
          rw [hb] at hany
          exact absurd hany (by decide)
  · intro hall
    rw [he]
    have : (send observers payload).any truthy = false := by
      rw [List.any_eq_false]
      intro r hr
      simp [hall r hr]
    simp [this]

/-- Witness for C6: two registered observers, one truthy reply. -/
theorem C6_witness :
    (([fun _ => true, fun _ => false] : List (Unit → Bool)) ≠ []) ∧
    ((send ([fun _ => true, fun _ => false] : List (Unit → Bool)) ()).length
        = ([fun _ => true, fun _ => false] : List (Unit → Bool)).length ∧
      (backup_on_error ([fun _ => true, fun _ => false] : List (Unit → Bool))
          (fun r => r) () = ErrorPathOutcome.reraised ↔
        ∃ reply ∈ send ([fun _ => true, fun _ => false] : List (Unit → Bool)) (),
          (fun r => r) reply = true) ∧
      ((∀ reply ∈ send ([fun _ => true, fun _ => false] : List (Unit → Bool)) (),
          (fun r => r) reply = false) →
        backup_on_error ([fun _ => true, fun _ => false] : List (Unit → Bool))
          (fun r => r) () = ErrorPathOutcome.returnedNone)) :=
  ⟨by simp,
    C6_backup_error_observer_votes ([fun _ => true, fun _ => false] : List (Unit → Bool))
      (fun r => r) () (by simp)⟩

/-- C7. When `backup` has found a newest benji-prefixed rbd snapshot,
the `benji ls` query it issues considers only versions whose status is
`valid`; when no version of the catalog matches the volume, that
snapshot and status `valid`, the snapshot is deleted and a full initial
backup is performed; and whenever a differential backup is chosen, its
base version is a matching version with status `valid`. -/
theorem C7_base_version_selection (rbdSnapLs : List String) (versions : List Version)
    (volume lastSnapshot : String)
    (hlast : (rbdSnapLs.filter (fun name => pyStartsWith name RBD_SNAP_NAME_PREFIX)).getLast?
        = some lastSnapshot) :
    (∀ v ∈ benjiLsValid versions volume lastSnapshot, v.status = "valid") ∧
    ((∀ v ∈ versions, ¬(v.volume = volume ∧ v.snapshot = lastSnapshot ∧ v.status = "valid")) →
      backupDecision rbdSnapLs versions volume
        = BackupAction.dropSnapshotThenInitial lastSnapshot) ∧
    (∀ base uid, backupDecision rbdSnapLs versions volume
        = BackupAction.differentialBackup base uid →
      base = lastSnapshot ∧
      ∃ v ∈ versions, v.uid = uid ∧ v.volume = volume ∧ v.snapshot = lastSnapshot ∧
        v.status = "valid") := by
  refine ⟨?_, ?_, ?_⟩
  · intro v hv
    have hp := List.of_mem_filter hv
    simp only [Bool.and_eq_true, beq_iff_eq] at hp
    exact hp.2
  · intro hnone
    have hempty : benjiLsValid versions volume lastSnapshot = [] := by
      rw [benjiLsValid, List.filter_eq_nil_iff]
      intro v hv
      simp only [Bool.and_eq_true, beq_iff_eq, not_and]
      intro h12 h3
      exact hnone v hv ⟨h12.1, h12.2, h3⟩
    simp only [backupDecision, hlast, hempty]
  · intro base uid hdec
    simp only [backupDecision, hlast] at hdec
    cases hls : benjiLsValid versions volume lastSnapshot with
    | nil => rw [hls] at hdec; exact absurd hdec (by simp)
    | cons v rest =>
        rw [hls] at hdec
        simp only [BackupAction.differentialBackup.injEq] at hdec
        obtain ⟨hbase, huid⟩ := hdec
        have hv : v ∈ benjiLsValid versions volume lastSnapshot := by
          rw [hls]; exact List.mem_cons_self v rest
        have hmem := List.mem_of_mem_filter hv
        have hp := List.of_mem_filter hv
        simp only [Bool.and_eq_true, beq_iff_eq] at hp
        exact ⟨hbase.symm, v, hmem, huid, hp.1.1, hp.1.2, hp.2⟩

/-- Witness for C7: one benji-prefixed snapshot, a catalog holding an
invalid and a valid version for it. -/
theorem C7_witness :
    ((["b-2020-01-01", "other"].filter
        (fun name => pyStartsWith name RBD_SNAP_NAME_PREFIX)).getLast?
      = some "b-2020-01-01") ∧
    ((∀ v ∈ benjiLsValid
        [Version.mk "V1" "vol" "b-2020-01-01" "invalid",
         Version.mk "V2" "vol" "b-2020-01-01" "valid"] "vol" "b-2020-01-01",
        v.status = "valid") ∧
      ((∀ v ∈ [Version.mk "V1" "vol" "b-2020-01-01" "invalid",
               Version.mk "V2" "vol" "b-2020-01-01" "valid"],
          ¬(v.volume = "vol" ∧ v.snapshot = "b-2020-01-01" ∧ v.status = "valid")) →
        backupDecision ["b-2020-01-01", "other"]
            [Version.mk "V1" "vol" "b-2020-01-01" "invalid",
             Version.mk "V2" "vol" "b-2020-01-01" "valid"] "vol"
          = BackupAction.dropSnapshotThenInitial "b-2020-01-01") ∧
      (∀ base uid, backupDecision ["b-2020-01-01", "other"]
            [Version.mk "V1" "vol" "b-2020-01-01" "invalid",
             Version.mk "V2" "vol" "b-2020-01-01" "valid"] "vol"
          = BackupAction.differentialBackup base uid →
        base = "b-2020-01-01" ∧
        ∃ v ∈ [Version.mk "V1" "vol" "b-2020-01-01" "invalid",
               Version.mk "V2" "vol" "b-2020-01-01" "valid"],
          v.uid = uid ∧ v.volume = "vol" ∧ v.snapshot = "b-2020-01-01" ∧
            v.status = "valid")) :=
  ⟨by decide,
    C7_base_version_selection ["b-2020-01-01", "other"]
      [Version.mk "V1" "vol" "b-2020-01-01" "invalid",
       Version.mk "V2" "vol" "b-2020-01-01" "valid"] "vol" "b-2020-01-01" (by decide)⟩

/-- C9. When no observer is registered for the post-error signal, the
error paths of `snapshot_create`, `backup` and `restore` all evaluate
`reduce(or_, ...)` on an empty reply sequence with no initial value,
which raises `TypeError`: the call neither re-raises the original
exception nor suppresses it (returning `None`). -/
theorem C9_no_observers_typeerror {π ρ : Type} (truthy : ρ → Bool) (payload : π) :
    snapshot_create_on_error ([] : List (π → ρ)) truthy payload
        = ErrorPathOutcome.typeErrorRaised ∧
    backup_on_error ([] : List (π → ρ)) truthy payload
        = ErrorPathOutcome.typeErrorRaised ∧
    restore_on_error ([] : List (π → ρ)) truthy payload
        = ErrorPathOutcome.typeErrorRaised ∧
    ErrorPathOutcome.typeErrorRaised ≠ ErrorPathOutcome.reraised ∧
    ErrorPathOutcome.typeErrorRaised ≠ ErrorPathOutcome.returnedNone :=
  ⟨rfl, rfl, rfl, by decide, by decide⟩

/-- When no entry of the list carries the resource's uid, the whole loop
falls through to its `else` and the fresh entry is appended. -/
theorem update_status_list_no_match {ε : Type} (lst : List (StatusEntry ε))
    (resource : Resource) (extra_data : ε)
    (hall : ∀ e ∈ lst, e.objectRef.uid ≠ resource.metadata.uid) :
    update_status_list lst resource extra_data
      = lst ++ [newStatusEntry resource extra_data] := by
  induction lst with
  | nil => rfl
  | cons x xs ih =>
      have hx := hall x (List.mem_cons_self x xs)
      simp only [update_status_list, if_neg hx, List.cons_append, List.cons.injEq, true_and]
      exact ih (fun e he => hall e (List.mem_cons_of_mem x he))

/-- The first entry carrying the resource's uid is replaced in place and
the loop breaks: everything before and after it is untouched. -/
theorem update_status_list_first_match {ε : Type} (l₁ : List (StatusEntry ε))
    (e : StatusEntry ε) (l₂ : List (StatusEntry ε)) (resource : Resource) (extra_data : ε)
    (hl₁ : ∀ x ∈ l₁, x.objectRef.uid ≠ resource.metadata.uid)
    (he : e.objectRef.uid = resource.metadata.uid) :
    update_status_list (l₁ ++ e :: l₂) resource extra_data
      = l₁ ++ newStatusEntry resource extra_data :: l₂ := by
  induction l₁ with
  | nil => simp [update_status_list, if_pos he]
  | cons x xs ih =>
      have hx : x.objectRef.uid ≠ resource.metadata.uid := hl₁ x (List.mem_cons_self x xs)
      simp only [List.cons_append, update_status_list, if_neg hx, List.cons.injEq, true_and]
      exact ih (fun y hy => hl₁ y (List.mem_cons_of_mem x hy))

/-- C10. `update_status_list` works on a copy of its input
(`new_lst = list(lst)`, a pure function here) and returns: when some
entry's object-reference uid equals the resource's uid, the input with
the first such entry replaced by the fresh entry built from the resource
and the extra data, every other entry unchanged and in its original
position; when no entry matches, the input with that fresh entry
appended at the end. -/
theorem C10_update_status_list_frame {ε : Type} (lst : List (StatusEntry ε))
    (resource : Resource) (extra_data : ε) :
    ((∀ e ∈ lst, e.objectRef.uid ≠ resource.metadata.uid) →
      update_status_list lst resource extra_data
        = lst ++ [newStatusEntry resource extra_data]) ∧
    (∀ l₁ e l₂, lst = l₁ ++ e :: l₂ →
      (∀ x ∈ l₁, x.objectRef.uid ≠ resource.metadata.uid) →
      e.objectRef.uid = resource.metadata.uid →
      update_status_list lst resource extra_data
        = l₁ ++ newStatusEntry resource extra_data :: l₂) := by
  constructor
  · exact update_status_list_no_match lst resource extra_data
  · intro l₁ e l₂ hlst hl₁ he
    subst hlst
    exact update_status_list_first_match l₁ e l₂ resource extra_data hl₁ he

/-- Witness for C10: a two-entry list whose first entry matches the
resource's uid is updated in place, the second entry untouched. -/
theorem C10_witness :
    (([StatusEntry.mk (ObjectRef.mk "a" "nsA" "u1" none) 1,
       StatusEntry.mk (ObjectRef.mk "b" "nsB" "u2" none) 2] : List (StatusEntry Nat))
      = [] ++ StatusEntry.mk (ObjectRef.mk "a" "nsA" "u1" none) 1
          :: [StatusEntry.mk (ObjectRef.mk "b" "nsB" "u2" none) 2]) ∧
    ((StatusEntry.mk (ObjectRef.mk "a" "nsA" "u1" none) 1).objectRef.uid
      = (Resource.mk (ResourceMetadata.mk "j" "nsJ" "u1") "v1" "Job").metadata.uid) ∧
    update_status_list
        ([StatusEntry.mk (ObjectRef.mk "a" "nsA" "u1" none) 1,
          StatusEntry.mk (ObjectRef.mk "b" "nsB" "u2" none) 2] : List (StatusEntry Nat))
        (Resource.mk (ResourceMetadata.mk "j" "nsJ" "u1") "v1" "Job") 7
      = [] ++ newStatusEntry (Resource.mk (ResourceMetadata.mk "j" "nsJ" "u1") "v1" "Job") 7
          :: [StatusEntry.mk (ObjectRef.mk "b" "nsB" "u2" none) 2] :=
  ⟨rfl, rfl,
    (C10_update_status_list_frame
        ([StatusEntry.mk (ObjectRef.mk "a" "nsA" "u1" none) 1,
          StatusEntry.mk (ObjectRef.mk "b" "nsB" "u2" none) 2] : List (StatusEntry Nat))
        (Resource.mk (ResourceMetadata.mk "j" "nsJ" "u1") "v1" "Job") 7).2
      [] (StatusEntry.mk (ObjectRef.mk "a" "nsA" "u1" none) 1)
      [StatusEntry.mk (ObjectRef.mk "b" "nsB" "u2" none) 2] rfl
      (by intro x hx; exact absurd hx (List.not_mem_nil x)) rfl⟩

end Benji
